import Mathlib

/-!
Verification development for the go-apt-client library.

The library has two source files: `repos.go` (repository configuration
model: `Repository`, `Repository.Equals`, `Repository.APTConfigLine`,
`parseAPTConfigLine`, `parseAPTConfigFile`, `ParseAPTConfigFolder`,
`AddRepository`) and `apt.go` (package operations facade:
`parseDpkgQueryOutput`, `Install`, `Remove`, `Upgrade`, `UpgradeAll`,
`GetDependencies`, ...).

The Go code is shallowly embedded here:

* strings are Lean `String`s, and the line-matching regular expression
  `^(# )?(deb|deb-src)(?: \[(.*)\])? ([^ ]+) ([^ ]+) ([^#\n]+)(?: +# *(.*))?$`
  is embedded as an explicit backtracking matcher over `List Char`
  (`greedyAux` implements a greedy sub-expression with backtracking,
  which is exactly the leftmost-first match that Go's regexp package
  documents for submatch extraction);
* the filesystem seen by `ParseAPTConfigFolder` / `AddRepository` is a
  `ConfigFolder` record: the content of `sources.list` (`none` when the
  file is missing or unreadable) and the listing of `sources.list.d`
  (`none` when the directory cannot be listed);
* external tool invocations are values of type `Command` (program name
  plus argument list); functions that in Go run a command and parse its
  output instead take the captured output as an explicit argument;
* a Go runtime panic (index out of range) is modelled by `Option.none`;
  a Go `error` return is modelled by `Except.error`.
-/

namespace Apt

/-- Package is a package available in the APT system (apt.go). -/
structure Package where
  Name : String
  Status : String
  Architecture : String
  Version : String
  ShortDescription : String
  InstalledSizeKB : Int
deriving DecidableEq, Repr

/-- Repository is a repository installed in the system (repos.go),
with the fields in the order of the Go struct. -/
structure Repository where
  Enabled : Bool
  SourceRepo : Bool
  Options : String
  URI : String
  Distribution : String
  Components : String
  Comment : String
deriving DecidableEq, Repr

/-- RepositoryList is an array of Repository definitions (repos.go). -/
def RepositoryList := List Repository

instance : DecidableEq RepositoryList :=
  inferInstanceAs (DecidableEq (List Repository))

/-- Equals checks if the Repository definition is equivalent to the one
provided as parameter (repos.go); the chain of early-return `if`
statements of the Go method is translated literally. -/
def Repository.Equals (r repo : Repository) : Bool :=
  if r.Components ≠ repo.Components then false
  else if r.Distribution ≠ repo.Distribution then false
  else if r.URI ≠ repo.URI then false
  else if r.SourceRepo ≠ repo.SourceRepo then false
  else if r.Options ≠ repo.Options then false
  else true

/-- Contains checks if a repository definition is already contained in
the RepositoryList (repos.go): the Go loop returns true on the first
element `i` with `repo.Equals(i)`. -/
def RepositoryList.Contains (l : RepositoryList) (repo : Repository) : Bool :=
  (l : List Repository).any (fun i => repo.Equals i)

/-- Character set of Go's `unicode.IsSpace`, used by `strings.TrimSpace`. -/
def goIsSpace (c : Char) : Bool :=
  c.val = 9 ∨ c.val = 10 ∨ c.val = 11 ∨ c.val = 12 ∨ c.val = 13 ∨ c.val = 32 ∨
  c.val = 0x85 ∨ c.val = 0xA0 ∨ c.val = 0x1680 ∨
  (0x2000 ≤ c.val ∧ c.val ≤ 0x200A) ∨
  c.val = 0x2028 ∨ c.val = 0x2029 ∨ c.val = 0x202F ∨ c.val = 0x205F ∨ c.val = 0x3000

/-- Model of the Go test `strings.TrimSpace(s) != ""`: some character of
`s` is not whitespace. -/
def goTrimNonEmpty (s : String) : Bool :=
  s.data.any (fun c => ¬ goIsSpace c)

/-- APTConfigLine returns the source.list config line for the Repository
(repos.go).  The sequence of `res += ...` statements is translated as one
concatenation; note that the Go code appends `"[" + r.Options + "]"`
without a trailing space. -/
def Repository.APTConfigLine (r : Repository) : String :=
  (if r.Enabled then "" else "# ") ++
  (if r.SourceRepo then "deb-src " else "deb ") ++
  (if goTrimNonEmpty r.Options then "[" ++ r.Options ++ "]" else "") ++
  r.URI ++ " " ++ r.Distribution ++ " " ++ r.Components ++
  (if goTrimNonEmpty r.Comment then " # " ++ r.Comment else "")

/-! ### The embedded regular expression

`aptConfigLineRegexp = ^(# )?(deb|deb-src)(?: \[(.*)\])? ([^ ]+) ([^ ]+) ([^#\n]+)(?: +# *(.*))?$`

Each piece of the pattern becomes one small function; greedy
sub-expressions (`*`, `+`, the optional groups and the alternation) try
the longest/leftmost alternative first and backtrack on failure of the
rest of the pattern, which reproduces the submatches Go's regexp engine
reports.  Capture groups that do not participate in the match are the
empty string, exactly as `FindAllStringSubmatch` reports them. -/

/-- Left-biased choice between two optional results (backtracking). -/
def orOpt {α : Type} (x y : Option α) : Option α :=
  match x with
  | some v => some v
  | none => y

/-- Greedy matching of a character class `p` followed by the rest of the
pattern `k`: consume as many `p`-characters as possible, then give back
one at a time while `k` keeps failing.  `k` receives the consumed
characters (the capture) and the remaining input. -/
def greedyAux {α : Type} (p : Char → Bool) (k : List Char → List Char → Option α)
    (acc : List Char) : List Char → Option α
  | [] => k acc.reverse []
  | c :: cs =>
    if p c then orOpt (greedyAux p k (c :: acc) cs) (k acc.reverse (c :: cs))
    else k acc.reverse (c :: cs)

/-- Character class of `.` (anything but a newline). -/
def isNotNL (c : Char) : Bool := c ≠ '\n'

/-- Character class of `[^ ]`. -/
def isNotSp (c : Char) : Bool := c ≠ ' '

/-- Character class of `[^#\n]`. -/
def isComp (c : Char) : Bool := c ≠ '#' ∧ c ≠ '\n'

/-- Character class of the literal space. -/
def isSp (c : Char) : Bool := c = ' '

/-- Matcher for the final `(.*)$`: greedy dot-star whose continuation
requires the end of the input; returns the capture of group 7. -/
def reDotStarEnd (s : List Char) : Option (List Char) :=
  greedyAux isNotNL (fun g rest => if rest = [] then some g else none) [] s

/-- Matcher for ` *(.*)$` (the part of the comment group after `#`). -/
def reAfterHash (s : List Char) : Option (List Char) :=
  greedyAux isSp (fun _ rest => reDotStarEnd rest) [] s

/-- Matcher for `# *(.*)$`. -/
def reHash (s : List Char) : Option (List Char) :=
  match s with
  | c :: r => if c = '#' then reAfterHash r else none
  | [] => none

/-- Matcher for ` +# *(.*)$` (the comment group with at least one
leading space). -/
def reCommentPresent (s : List Char) : Option (List Char) :=
  match s with
  | c :: cs => if isSp c then greedyAux isSp (fun _ rest => reHash rest) [c] cs else none
  | [] => none

/-- Matcher for `(?: +# *(.*))?$`: try the comment group greedily, and
otherwise require the end of the line; an absent group captures `[]`. -/
def reCommentOpt (s : List Char) : Option (List Char) :=
  orOpt (reCommentPresent s) (if s = [] then some [] else none)

/-- Matcher for `([^#\n]+)(?: +# *(.*))?$`: components plus optional
comment. -/
def reComps (s : List Char) : Option (List Char × List Char) :=
  match s with
  | c :: cs =>
    if isComp c then
      greedyAux isComp
        (fun comp rest => (reCommentOpt rest).map (fun cm => (comp, cm))) [c] cs
    else none
  | [] => none

/-- Matcher for `([^ ]+) ([^#\n]+)(?: +# *(.*))?$`: distribution and the
rest. -/
def reDist (s : List Char) : Option (List Char × List Char × List Char) :=
  match s with
  | c :: cs =>
    if isNotSp c then
      greedyAux isNotSp
        (fun d rest =>
          match rest with
          | r :: r2 => if r = ' ' then (reComps r2).map (fun t => (d, t)) else none
          | [] => none) [c] cs
    else none
  | [] => none

/-- Matcher for `([^ ]+) ([^ ]+) ([^#\n]+)(?: +# *(.*))?$`: URI and the
rest. -/
def reURIstage (s : List Char) : Option (List Char × List Char × List Char × List Char) :=
  match s with
  | c :: cs =>
    if isNotSp c then
      greedyAux isNotSp
        (fun u rest =>
          match rest with
          | r :: r2 => if r = ' ' then (reDist r2).map (fun t => (u, t)) else none
          | [] => none) [c] cs
    else none
  | [] => none

/-- Matcher for the participating options group ` \[(.*)\]` followed by
the rest of the pattern. -/
def reBracketPresent (s : List Char) :
    Option (List Char × List Char × List Char × List Char × List Char) :=
  match s with
  | c1 :: c2 :: r =>
    if c1 = ' ' ∧ c2 = '[' then
      greedyAux isNotNL
        (fun o rest =>
          match rest with
          | rc :: r2 =>
            if rc = ']' then
              match r2 with
              | rc2 :: r3 =>
                if rc2 = ' ' then (reURIstage r3).map (fun t => (o, t)) else none
              | [] => none
            else none
          | [] => none) [] r
    else none
  | _ => none

/-- Matcher for `(?: \[(.*)\])? ([^ ]+) ...`: the optional bracketed
options group; an absent group captures `[]`. -/
def reBracketOpt (s : List Char) :
    Option (List Char × List Char × List Char × List Char × List Char) :=
  orOpt (reBracketPresent s)
    (match s with
     | c :: r => if c = ' ' then (reURIstage r).map (fun t => (([] : List Char), t)) else none
     | [] => none)

/-- Characters of the literal `deb`. -/
def debChars : List Char := 'd' :: 'e' :: 'b' :: []

/-- Characters of the literal `deb-src`. -/
def debsrcChars : List Char := 'd' :: 'e' :: 'b' :: '-' :: 's' :: 'r' :: 'c' :: []

/-- Matcher for `(deb|deb-src)(?: \[(.*)\])? ...`: the alternation tries
`deb` first and backtracks to `deb-src`, as a leftmost-first engine
does. -/
def reKind (s : List Char) :
    Option (List Char × List Char × List Char × List Char × List Char × List Char) :=
  match s with
  | c1 :: c2 :: c3 :: r =>
    if c1 = 'd' ∧ c2 = 'e' ∧ c3 = 'b' then
      orOpt ((reBracketOpt r).map (fun t => (debChars, t)))
        (match r with
         | c4 :: c5 :: c6 :: c7 :: r2 =>
           if c4 = '-' ∧ c5 = 's' ∧ c6 = 'r' ∧ c7 = 'c' then
             (reBracketOpt r2).map (fun t => (debsrcChars, t))
           else none
         | _ => none)
    else none
  | _ => none

/-- The submatches of `aptConfigLineRegexp`, i.e. `match[0][1]` ..
`match[0][7]` of `FindAllStringSubmatch`; a group that did not
participate holds the empty list, as in Go. -/
structure RawMatch where
  g1 : List Char
  g2 : List Char
  g3 : List Char
  g4 : List Char
  g5 : List Char
  g6 : List Char
  g7 : List Char
deriving DecidableEq, Repr

/-- Matcher for the full anchored pattern
`^(# )?(deb|deb-src)(?: \[(.*)\])? ([^ ]+) ([^ ]+) ([^#\n]+)(?: +# *(.*))?$`. -/
def reLine (s : List Char) : Option RawMatch :=
  orOpt
    (match s with
     | c1 :: c2 :: r =>
       if c1 = '#' ∧ c2 = ' ' then
         (reKind r).map (fun t =>
           ⟨'#' :: ' ' :: [], t.1, t.2.1, t.2.2.1, t.2.2.2.1, t.2.2.2.2.1, t.2.2.2.2.2⟩)
       else none
     | _ => none)
    ((reKind s).map (fun t =>
      ⟨[], t.1, t.2.1, t.2.2.1, t.2.2.2.1, t.2.2.2.2.1, t.2.2.2.2.2⟩))

/-- parseAPTConfigLine (repos.go): run the regular expression on the
line; on failure return `none` (the Go function returns `nil`), on
success build the `Repository` from the submatches exactly as the Go
composite literal does (`Enabled: fields[1] != "# "`,
`SourceRepo: fields[2] == "deb-src"`, and the string fields verbatim). -/
def parseAPTConfigLine (line : String) : Option Repository :=
  (reLine line.data).map (fun m =>
    { Enabled := m.g1 ≠ ('#' :: ' ' :: [])
      SourceRepo := m.g2 = debsrcChars
      Options := String.mk m.g3
      URI := String.mk m.g4
      Distribution := String.mk m.g5
      Components := String.mk m.g6
      Comment := String.mk m.g7 })

/-! ### Line and field splitting

`bufio.Scanner` with the default `ScanLines` split function and
`strings.Split` with a one-character separator are modelled over
`List Char`. -/

/-- Model of Go `strings.Split(s, sep)` for a one-character separator,
over character lists: always returns one more part than there are
separators (`[[]]` on empty input, trailing empty part for a trailing
separator). -/
def splitCh (sep : Char) : List Char → List (List Char)
  | [] => [] :: []
  | c :: rest =>
    match splitCh sep rest with
    | [] => [] :: []
    | h :: t => if c = sep then [] :: h :: t else (c :: h) :: t

/-- Model of Go `strings.Split(s, sep)` on strings. -/
def goSplit (s : String) (sep : Char) : List String :=
  (splitCh sep s.data).map String.mk

/-- Drop a single trailing carriage return (`dropCR` in `bufio.ScanLines`). -/
def dropCR (l : List Char) : List Char :=
  if l.getLast? = some '\r' then l.dropLast else l

/-- Model of reading a string line by line with `bufio.Scanner` /
`bufio.ScanLines`: split at every newline, do not produce a final empty
token for a trailing newline (or for empty input), and strip one
trailing `\r` from every line. -/
def goLines (s : String) : List String :=
  let parts := splitCh '\n' s.data
  let parts2 := if parts.getLast? = some [] then parts.dropLast else parts
  parts2.map (fun l => String.mk (dropCR l))

/-- Model of Go `strings.HasSuffix`. -/
def goHasSuffix (s suffi : String) : Bool :=
  suffi.data.isSuffixOf s.data

/-! ### The APT config folder

`ParseAPTConfigFolder` and `AddRepository` read and write the
filesystem.  The part of the filesystem they touch is a `ConfigFolder`:
the primary `sources.list` file (`none` when missing/unreadable, as
`ioutil.ReadFile` then fails) and the `sources.list.d` directory
(`none` when `ioutil.ReadDir` fails, otherwise the listed files with
their contents, in directory-listing order). -/

structure ConfigFolder where
  sourcesList : Option String
  sourcesListD : Option (List (String × String))
deriving DecidableEq

/-- Loop body of parseAPTConfigFile (repos.go): scan the data line by
line, append the parsed repository of each line that matches, skip the
others. -/
def parseAPTConfigFileContent (data : String) : List Repository :=
  (goLines data).foldl
    (fun res line =>
      match parseAPTConfigLine line with
      | some repo => res ++ [repo]
      | none => res) []

/-- parseAPTConfigFile (repos.go) on the model: reading a missing file
is the error path, otherwise the scanner loop above runs. -/
def parseAPTConfigFile (content : Option String) : Except String (List Repository) :=
  match content with
  | none => Except.error "Reading file: no such file or directory"
  | some data => Except.ok (parseAPTConfigFileContent data)

/-- ParseAPTConfigFolder (repos.go): fail if `sources.list.d` cannot be
listed; otherwise build the source list — `sources.list` first, then
every file of the listing whose name has suffix `.list` — and fold
`parseAPTConfigFile` over it, aborting on the first error (only the
primary file can be missing in the model) and appending the parsed
repositories otherwise. -/
def ParseAPTConfigFolder (f : ConfigFolder) : Except String RepositoryList :=
  match f.sourcesListD with
  | none => Except.error "Reading sources.list.d folder: cannot list directory"
  | some listing =>
    let sources : List (Option String) :=
      (f.sourcesList :: []) ++
        listing.foldl
          (fun acc ent => if goHasSuffix ent.1 ".list" then acc ++ [some ent.2] else acc) []
    (sources.foldlM
      (fun res src =>
        match parseAPTConfigFile src with
        | Except.error e => Except.error ("Parsing source: " ++ e)
        | Except.ok repos => Except.ok (res ++ repos)) ([] : List Repository) :
      Except String (List Repository))

/-- Content of the managed file in a listing: the content of the first
entry named `managed.list`, or the empty string when the file does not
exist yet. -/
def managedContent (listing : List (String × String)) : String :=
  (((listing.find? (fun ent => ent.1 = "managed.list")).map (fun ent => ent.2)).getD "")

/-- AddRepository (repos.go): parse the folder, fail on a duplicate,
otherwise append the rendered line plus a newline to
`sources.list.d/managed.list` (`O_APPEND` when the file exists, create
it otherwise). -/
def AddRepository (repo : Repository) (f : ConfigFolder) : Except String ConfigFolder :=
  match ParseAPTConfigFolder f with
  | Except.error e => Except.error ("parsing APT config: " ++ e)
  | Except.ok repos =>
    if RepositoryList.Contains repos repo then
      Except.error "The repository is already configured"
    else
      match f.sourcesListD with
      | none => Except.error "Opening managed.list: cannot open"
      | some listing =>
        let line := Repository.APTConfigLine repo ++ "\n"
        if listing.any (fun ent => ent.1 = "managed.list") then
          let updated := listing.map (fun ent =>
            if ent.1 = "managed.list" then (ent.1, ent.2 ++ line) else ent)
          Except.ok { f with sourcesListD := some updated }
        else
          let created := listing ++ (("managed.list", line) :: [])
          Except.ok { f with sourcesListD := some created }

/-! ### The dpkg-query output parser (apt.go) -/

/-- Model of Go `strconv.Atoi`: optional sign, a nonempty run of ASCII
digits, and the platform int (64-bit) range; everything else is an
error, modelled as `none`. -/
def goAtoi (s : String) : Option Int :=
  let signDigits : Int × List Char :=
    match s.data with
    | '+' :: r => (1, r)
    | '-' :: r => (-1, r)
    | r => (1, r)
  if signDigits.2 = [] then none
  else if signDigits.2.all (fun c => c.isDigit) then
    let v : Int := signDigits.1 *
      (signDigits.2.foldl (fun acc c => 10 * acc + (c.toNat - 48)) 0 : Nat)
    if -(2 ^ 63) ≤ v ∧ v ≤ 2 ^ 63 - 1 then some v else none
  else none

/-- One iteration of the parseDpkgQueryOutput loop (apt.go): split the
line at tabs; the Go code indexes `data[4]` and `data[0..3]`, `data[5]`
unconditionally, so a line with fewer than six fields panics (`none`);
`strconv.Atoi` errors on the size field are ignored and the size set
to 0. -/
def parseDpkgLine (line : String) : Option Package :=
  let data := goSplit line '\t'
  match data.get? 4, data.get? 0, data.get? 1, data.get? 2, data.get? 3, data.get? 5 with
  | some d4, some d0, some d1, some d2, some d3, some d5 =>
    some { Name := d0, Architecture := d1, Status := d2, Version := d3,
           InstalledSizeKB := (goAtoi d4).getD 0, ShortDescription := d5 }
  | _, _, _, _, _, _ => none

/-- parseDpkgQueryOutput (apt.go): scan the output line by line and
build one Package per line; a panic on any line aborts the whole
function (`none`). -/
def parseDpkgQueryOutput (out : String) : Option (List Package) :=
  (goLines out).mapM parseDpkgLine

/-- The record a well-formed (≥ 6 tab-separated fields) dpkg-query line
parses to; used to state the parser theorems. -/
def dpkgRecord (line : String) : Package :=
  let data := goSplit line '\t'
  { Name := data.getD 0 "", Architecture := data.getD 1 "", Status := data.getD 2 "",
    Version := data.getD 3 "", InstalledSizeKB := (goAtoi (data.getD 4 "")).getD 0,
    ShortDescription := data.getD 5 "" }

/-! ### The dependency lister (apt.go) -/

/-- Body of the GetDependencies loop (apt.go): the state is the Go
`depList`/`depSeen` pair; split the line at spaces, take the last token,
skip empty tokens, the queried package's name and already-seen names,
and otherwise record the name in both components. -/
def depStep (packName : String) (st : List String × List String) (dep : String) :
    List String × List String :=
  let split := goSplit dep ' '
  if split.length > 0 then
    let depName := (split.getLast?).getD ""
    if depName = "" ∨ depName = packName then st
    else if st.2.contains depName then st
    else (st.1 ++ [depName], st.2 ++ [depName])
  else st

/-- GetDependencies (apt.go): validate the package, then process the
captured `apt-cache depends -i --recurse` output: split into lines,
reverse, and run the loop above over the reversed lines, returning the
accumulated `depList`. -/
def GetDependencies (pack : Option Package) (out : String) : Except String (List String) :=
  match pack with
  | none => Except.error "apt.GetDependencies: Invalid package with empty Name"
  | some p =>
    if p.Name = "" then Except.error "apt.GetDependencies: Invalid package with empty Name"
    else
      let splitOutput := (goSplit out '\n').reverse
      Except.ok ((splitOutput.foldl (depStep p.Name) ([], [])).1)

/-- Last space-separated token of a line (the candidate dependency name
described by the specification). -/
def lastTok (l : String) : String :=
  ((goSplit l ' ').getLast?).getD ""

/-- First occurrence wins deduplication, as the specification describes
the seen-set. -/
def dedupeFirst : List String → List String
  | [] => []
  | x :: xs => x :: dedupeFirst (xs.filter (fun y => y ≠ x))
termination_by l => l.length
decreasing_by
  simp only [List.length_cons]
  exact Nat.lt_succ_of_le (List.length_filter_le _ _)

/-- The dependency list as the specification words it: reverse the
lines, take each line's last token, drop empty names and the queried
package's name, keep first occurrences. -/
def depsSpec (packName : String) (out : String) : List String :=
  dedupeFirst ((((goSplit out '\n').reverse).map lastTok).filter
    (fun n => n ≠ "" ∧ n ≠ packName))

/-! ### The operation facade (apt.go)

`Install`, `Remove` and `Upgrade` build an argument list and issue one
`apt-get` invocation; the invocation is modelled by the `Command` value
they return.  A `nil` element of the variadic package list is
`Option.none`. -/

structure Command where
  tool : String
  args : List String
deriving DecidableEq, Repr

/-- Argument-building loop shared by the operations (apt.go): starting
from the fixed arguments, append each package name, returning the
`Invalid package with empty Name` error as soon as a package is `nil`
or has an empty name. -/
def buildCmdArgs (op : String) (args : List String) :
    List (Option Package) → Except String (List String)
  | [] => Except.ok args
  | p :: rest =>
    match p with
    | none => Except.error ("apt." ++ op ++ ": Invalid package with empty Name")
    | some pk =>
      if pk.Name = "" then Except.error ("apt." ++ op ++ ": Invalid package with empty Name")
      else buildCmdArgs op (args ++ [pk.Name]) rest

/-- Install (apt.go): `apt-get install -y <names>`. -/
def Install (packs : List (Option Package)) : Except String Command :=
  match buildCmdArgs "Install" ("install" :: "-y" :: []) packs with
  | Except.error e => Except.error e
  | Except.ok args => Except.ok ⟨"apt-get", args⟩

/-- Remove (apt.go): `apt-get remove -y <names>`. -/
def Remove (packs : List (Option Package)) : Except String Command :=
  match buildCmdArgs "Remove" ("remove" :: "-y" :: []) packs with
  | Except.error e => Except.error e
  | Except.ok args => Except.ok ⟨"apt-get", args⟩

/-- Upgrade (apt.go): `apt-get upgrade -y <names>`. -/
def Upgrade (packs : List (Option Package)) : Except String Command :=
  match buildCmdArgs "Upgrade" ("upgrade" :: "-y" :: []) packs with
  | Except.error e => Except.error e
  | Except.ok args => Except.ok ⟨"apt-get", args⟩

/-- UpgradeAll (apt.go): the fixed command `apt-get upgrade -y`. -/
def UpgradeAll : Command := ⟨"apt-get", "upgrade" :: "-y" :: []⟩

/-- A package that is rejected by the operations: `nil` or with an empty
name (the Go test `pack == nil || pack.Name == ""`). -/
def pkgInvalid (p : Option Package) : Bool :=
  match p with
  | none => true
  | some pk => pk.Name = ""

/-- Names of the valid packages of a batch, in order. -/
def packNames (packs : List (Option Package)) : List String :=
  packs.filterMap (fun p => p.map Package.Name)

/-! ### Shape of a rendered config line

`mkLine` spells out, over `List Char`, the string `APTConfigLine`
produces: optional `# ` marker, `deb ` / `deb-src `, optionally
`[options]` (with no space before the URI — the rendering quirk of the
Go code), the three location fields, and optionally a trailing comment. -/

/-- Trailing comment part of a rendered line. -/
def cmSuffix : Option (List Char) → List Char
  | none => []
  | some m => ' ' :: '#' :: ' ' :: m

/-- Bracketed options part of a rendered line. -/
def brkPart : Option (List Char) → List Char
  | none => []
  | some o => '[' :: (o ++ (']' :: []))

/-- A rendered config line, assembled from its pieces. -/
def mkLine (enabled srcRepo : Bool) (brk : Option (List Char)) (u d c : List Char)
    (cm : Option (List Char)) : List Char :=
  (if enabled then [] else '#' :: ' ' :: []) ++
  (if srcRepo then debsrcChars ++ (' ' :: []) else debChars ++ (' ' :: [])) ++
  brkPart brk ++ u ++ (' ' :: d) ++ (' ' :: c) ++ cmSuffix cm

/-- Well-formedness of a Repository for the render/parse round-trip:
the three location fields are nonempty and free of characters that the
line grammar reserves (spaces in URI and distribution; `#` in the
components; newlines and square brackets everywhere, so that the
bracket of the options — which the renderer emits without a following
space — stays unambiguous), options without spaces, newlines or
brackets when they are rendered at all, and a comment that, when it is
rendered, does not start with a space (which ` *` would swallow) and
has no newline or brackets. -/
def WellFormed (r : Repository) : Prop :=
  (r.URI.data ≠ [] ∧ ∀ ch ∈ r.URI.data, ch ≠ ' ' ∧ ch ≠ '\n' ∧ ch ≠ '[' ∧ ch ≠ ']') ∧
  (r.Distribution.data ≠ [] ∧
    ∀ ch ∈ r.Distribution.data, ch ≠ ' ' ∧ ch ≠ '\n' ∧ ch ≠ ']') ∧
  (r.Components.data ≠ [] ∧
    ∀ ch ∈ r.Components.data, ch ≠ '#' ∧ ch ≠ '\n' ∧ ch ≠ ']') ∧
  (goTrimNonEmpty r.Options = true →
    ∀ ch ∈ r.Options.data, ch ≠ ' ' ∧ ch ≠ '\n' ∧ ch ≠ ']') ∧
  (goTrimNonEmpty r.Comment = true →
    r.Comment.data.head? ≠ some ' ' ∧ ∀ ch ∈ r.Comment.data, ch ≠ '\n' ∧ ch ≠ ']')

instance decidableWellFormed (r : Repository) : Decidable (WellFormed r) := by
  unfold WellFormed
  infer_instance

/-- The repository exhibiting the render/parse asymmetry: its options
are nonempty. -/
def c1repo : Repository :=
  ⟨true, false, "a", "http://u", "d", "c", ""⟩

/-- What `parseAPTConfigLine` actually returns on the rendered line of
`c1repo`: the bracketed options are glued onto the URI and the options
field comes back empty. -/
def c1parsed : Repository :=
  ⟨true, false, "", "[a]http://u", "d", "c", ""⟩

/-! ## Theorems -/

/-- C4: two repositories are Equals exactly when URI, Distribution,
Components, SourceRepo and Options all match; Enabled and Comment are
irrelevant to Equals. -/
theorem c4_equals_fields :
    (∀ r s : Repository, Repository.Equals r s = true ↔
      (r.URI = s.URI ∧ r.Distribution = s.Distribution ∧ r.Components = s.Components ∧
       r.SourceRepo = s.SourceRepo ∧ r.Options = s.Options)) ∧
    (∀ (r s : Repository) (e1 e2 : Bool) (c1 c2 : String),
      Repository.Equals { r with Enabled := e1, Comment := c1 }
        { s with Enabled := e2, Comment := c2 } = Repository.Equals r s) := by
  constructor
  · intro r s
    simp only [Repository.Equals]
    split_ifs <;> simp_all
  · intro r s e1 e2 c1 c2
    rfl

/-- C10: Upgrade with an empty package batch issues exactly the command
of UpgradeAll, `apt-get upgrade -y`. -/
theorem c10_upgrade_empty_is_upgradeAll :
    Upgrade [] = Except.ok UpgradeAll ∧ UpgradeAll = ⟨"apt-get", "upgrade" :: "-y" :: []⟩ := by
  exact ⟨rfl, rfl⟩

/-- Closed form of the argument-building loop: the first invalid package
aborts with the operation's error message (which does not depend on
which package was invalid), otherwise all names are appended. -/
theorem buildCmdArgs_eq (op : String) (packs : List (Option Package)) : ∀ args,
    buildCmdArgs op args packs =
      (if packs.any pkgInvalid then
        Except.error ("apt." ++ op ++ ": Invalid package with empty Name")
       else Except.ok (args ++ packNames packs)) := by
  induction packs with
  | nil => intro args; simp [buildCmdArgs, packNames]
  | cons p rest ih =>
    intro args
    cases p with
    | none => simp [buildCmdArgs, pkgInvalid]
    | some pk =>
      by_cases h : pk.Name = ""
      · simp [buildCmdArgs, h, pkgInvalid]
      · simp [buildCmdArgs, h, pkgInvalid, ih, packNames]

/-- C8: each batch operation fails with the `Invalid package with empty
Name` error — issuing no command — as soon as some target package is
nil or has an empty name, and otherwise issues exactly one combined
invocation carrying all the package names. -/
theorem c8_batch_operations (packs : List (Option Package)) :
    (Install packs =
      (if packs.any pkgInvalid then
        Except.error "apt.Install: Invalid package with empty Name"
       else Except.ok ⟨"apt-get", "install" :: "-y" :: packNames packs⟩)) ∧
    (Remove packs =
      (if packs.any pkgInvalid then
        Except.error "apt.Remove: Invalid package with empty Name"
       else Except.ok ⟨"apt-get", "remove" :: "-y" :: packNames packs⟩)) ∧
    (Upgrade packs =
      (if packs.any pkgInvalid then
        Except.error "apt.Upgrade: Invalid package with empty Name"
       else Except.ok ⟨"apt-get", "upgrade" :: "-y" :: packNames packs⟩)) := by
  refine ⟨?_, ?_, ?_⟩ <;>
    · simp only [Install, Remove, Upgrade, buildCmdArgs_eq]
      by_cases hc : packs.any pkgInvalid = true <;> simp [hc]

/-- C2, counterexample: a status line whose installed-size field is
missing — here only four tab-separated fields — makes
parseDpkgQueryOutput index past the end of the field slice, a runtime
panic (`none` in the embedding): the parser does fail, against the
claim that it never does. -/
theorem c2_counterexample_short_line :
    parseDpkgQueryOutput "pkg\tamd64\tinstalled\t1.0" = none := by
  rfl

/-- A list of length at least six starts with six explicit elements. -/
theorem six_le_length_cons {α : Type} (ls : List α) (h : 6 ≤ ls.length) :
    ∃ a b c d e f t, ls = a :: b :: c :: d :: e :: f :: t := by
  rcases ls with _ | ⟨a, _ | ⟨b, _ | ⟨c, _ | ⟨d, _ | ⟨e, _ | ⟨f, t⟩⟩⟩⟩⟩⟩ <;>
    simp only [List.length_nil, List.length_cons] at h
  · omega
  · omega
  · omega
  · omega
  · omega
  · omega
  · exact ⟨a, b, c, d, e, f, t, rfl⟩

/-- A dpkg-query line with at least six tab-separated fields parses
without panicking, to exactly the record of its fields. -/
theorem parseDpkgLine_eq (l : String) (h : 6 ≤ (goSplit l '\t').length) :
    parseDpkgLine l = some (dpkgRecord l) := by
  obtain ⟨a, b, c, d, e, f, t, heq⟩ := six_le_length_cons _ h
  simp [parseDpkgLine, dpkgRecord, heq]

/-- C2, amended: on output whose lines all carry at least six
tab-separated fields, parseDpkgQueryOutput never fails — it returns one
record per line — and a line whose installed-size field does not parse
as an integer gets `InstalledSizeKB = 0` while its five other fields are
taken over unchanged.  (A line with fewer than six fields, i.e. with the
installed-size or description field missing entirely, instead panics;
see the counterexample.) -/
theorem c2_nonnumeric_size_tolerated (out : String)
    (h : ∀ l ∈ goLines out, 6 ≤ (goSplit l '\t').length) :
    parseDpkgQueryOutput out = some ((goLines out).map dpkgRecord) ∧
    ∀ l ∈ goLines out, goAtoi ((goSplit l '\t').getD 4 "") = none →
      (dpkgRecord l).InstalledSizeKB = 0 ∧
      (dpkgRecord l).Name = (goSplit l '\t').getD 0 "" ∧
      (dpkgRecord l).Architecture = (goSplit l '\t').getD 1 "" ∧
      (dpkgRecord l).Status = (goSplit l '\t').getD 2 "" ∧
      (dpkgRecord l).Version = (goSplit l '\t').getD 3 "" ∧
      (dpkgRecord l).ShortDescription = (goSplit l '\t').getD 5 "" := by
  constructor
  · unfold parseDpkgQueryOutput
    have main : ∀ lines : List String, (∀ l ∈ lines, 6 ≤ (goSplit l '\t').length) →
        lines.mapM parseDpkgLine = some (lines.map dpkgRecord) := by
      intro lines hlines
      induction lines with
      | nil => rfl
      | cons x xs ih =>
        have hx := parseDpkgLine_eq x (hlines x (by simp))
        have ih2 := ih (fun l hl => hlines l (by simp [hl]))
        rw [List.mapM_cons, hx, ih2]
        rfl
    exact main _ h
  · intro l _ hAtoi
    simp [dpkgRecord, ← List.getD_eq_getElem?_getD, hAtoi]

/-- C2 witness: a concrete six-field line with the non-numeric size
`abc` satisfies the hypothesis, parses without failing, and yields
`InstalledSizeKB = 0`. -/
theorem c2_nonnumeric_size_tolerated_witness :
    (∀ l ∈ goLines "pkg\tamd64\tinstalled\t1.0\tabc\tdesc", 6 ≤ (goSplit l '\t').length) ∧
    parseDpkgQueryOutput "pkg\tamd64\tinstalled\t1.0\tabc\tdesc" =
      some ((goLines "pkg\tamd64\tinstalled\t1.0\tabc\tdesc").map dpkgRecord) ∧
    (dpkgRecord "pkg\tamd64\tinstalled\t1.0\tabc\tdesc").InstalledSizeKB = 0 :=
  ⟨by decide,
   (c2_nonnumeric_size_tolerated "pkg\tamd64\tinstalled\t1.0\tabc\tdesc" (by decide)).1,
   ((c2_nonnumeric_size_tolerated "pkg\tamd64\tinstalled\t1.0\tabc\tdesc" (by decide)).2
     "pkg\tamd64\tinstalled\t1.0\tabc\tdesc" (by decide) (by decide)).1⟩

/-- C1: the render/parse round trip does not preserve the five
equality-relevant fields.  `c1repo` is well-formed (nonempty URI,
distribution and components), but APTConfigLine renders its options as
`[a]` with no following space, the regular expression — which demands a
space after the closing bracket — therefore matches the bracket as part
of the URI token, and the reparsed repository differs from `c1repo` in
both URI and Options, so Equals is false.  The code contradicts its own
regular expression here: a line rendered with options can never parse
its options back. -/
theorem c1_roundtrip_fields_bug :
    Repository.APTConfigLine c1repo = "deb [a]http://u d c" ∧
    parseAPTConfigLine (Repository.APTConfigLine c1repo) = some c1parsed ∧
    Repository.Equals c1parsed c1repo = false ∧
    c1parsed.URI = "[a]http://u" ∧ c1parsed.Options = "" := by
  refine ⟨by decide, by decide, by decide, by decide, by decide⟩

/-- Splitting never yields an empty list of parts. -/
theorem splitCh_ne_nil (sep : Char) (l : List Char) : splitCh sep l ≠ [] := by
  cases l with
  | nil => simp [splitCh]
  | cons c rest =>
    simp only [splitCh]
    rcases h : splitCh sep rest with _ | ⟨hd, tl⟩
    · simp
    · split_ifs <;> simp

/-- Go `strings.Split` never yields an empty list of parts. -/
theorem goSplit_ne_nil (s : String) (sep : Char) : goSplit s sep ≠ [] := by
  simp [goSplit, splitCh_ne_nil]

/-- Characterization of the GetDependencies loop: starting from equal
`depList`/`depSeen` components `a`, the loop computes `a` followed by
the first occurrences of the valid names not already in `a`. -/
theorem depsFold_eq (pk : String) (lines : List String) : ∀ a : List String,
    (lines.foldl (depStep pk) (a, a)).1 =
      a ++ dedupeFirst ((lines.map lastTok).filter
        (fun n => n ≠ "" ∧ n ≠ pk ∧ a.contains n = false)) := by
  induction lines with
  | nil => intro a; simp [dedupeFirst]
  | cons x xs ih =>
    intro a
    rw [List.foldl_cons, List.map_cons]
    have hlen : (goSplit x ' ').length > 0 :=
      List.length_pos.mpr (goSplit_ne_nil x ' ')
    have hstep : depStep pk (a, a) x =
        (if lastTok x = "" ∨ lastTok x = pk then (a, a)
         else if a.contains (lastTok x) then (a, a)
         else (a ++ (lastTok x :: []), a ++ (lastTok x :: []))) := by
      simp [depStep, lastTok, hlen]
    by_cases h1 : lastTok x = "" ∨ lastTok x = pk
    · rw [hstep, if_pos h1, ih a, List.filter_cons_of_neg (by simp [h1]; tauto)]
    · push_neg at h1
      by_cases h2 : a.contains (lastTok x)
      · rw [hstep, if_neg (by tauto), if_pos h2, ih a,
          List.filter_cons_of_neg (by simp [h1.1, h1.2]; simpa using h2)]
      · rw [hstep, if_neg (by tauto), if_neg h2, ih (a ++ (lastTok x :: [])),
          List.filter_cons_of_pos (by simp [h1.1, h1.2]; simpa using h2)]
        rw [dedupeFirst]
        have hfil : (xs.map lastTok).filter
            (fun n => n ≠ "" ∧ n ≠ pk ∧ (a ++ (lastTok x :: [])).contains n = false) =
            ((xs.map lastTok).filter
              (fun n => n ≠ "" ∧ n ≠ pk ∧ a.contains n = false)).filter
              (fun n => n ≠ lastTok x) := by
          rw [List.filter_filter]
          apply List.filter_congr
          intro m _
          simp only [← Bool.decide_and, decide_eq_decide]
          simp only [List.elem_eq_mem, List.mem_append, List.mem_singleton,
            Bool.or_eq_false_iff, decide_eq_false_iff_not, ne_eq]
          tauto
        rw [hfil]
        simp

/-- C7: GetDependencies computes exactly the specification's
description — reverse the lines, take each line's last space-separated
token, skip the empty name and the queried package's own name, keep
first occurrences — and on the lines `["", "libc6", "libfoo", "mypkg"]`
for package `mypkg` it returns `["libfoo", "libc6"]`. -/
theorem c7_dependency_algorithm :
    (∀ (p : Package) (out : String), p.Name ≠ "" →
      GetDependencies (some p) out = Except.ok (depsSpec p.Name out)) ∧
    GetDependencies (some ⟨"mypkg", "", "", "", "", 0⟩) "\nlibc6\nlibfoo\nmypkg" =
      Except.ok ("libfoo" :: "libc6" :: []) := by
  constructor
  · intro p out h
    simp only [GetDependencies, if_neg h]
    rw [depsFold_eq]
    simp [depsSpec]
  · rfl

/-- C7 witness: the general statement applied to the concrete package
`mypkg` and the concrete dependency output. -/
theorem c7_dependency_algorithm_witness :
    ((⟨"mypkg", "", "", "", "", 0⟩ : Package).Name ≠ "") ∧
    GetDependencies (some ⟨"mypkg", "", "", "", "", 0⟩) "\nlibc6\nlibfoo\nmypkg" =
      Except.ok (depsSpec "mypkg" "\nlibc6\nlibfoo\nmypkg") :=
  ⟨by decide, c7_dependency_algorithm.1 ⟨"mypkg", "", "", "", "", 0⟩ "\nlibc6\nlibfoo\nmypkg"
    (by decide)⟩

/-- The scanner loop of parseAPTConfigFile keeps exactly the lines the
grammar accepts, in line order. -/
theorem parseFileContent_eq (data : String) :
    parseAPTConfigFileContent data = (goLines data).filterMap parseAPTConfigLine := by
  unfold parseAPTConfigFileContent
  have main : ∀ (lines : List String) (acc : List Repository),
      lines.foldl
        (fun res line =>
          match parseAPTConfigLine line with
          | some repo => res ++ [repo]
          | none => res) acc = acc ++ lines.filterMap parseAPTConfigLine := by
    intro lines
    induction lines with
    | nil => intro acc; simp
    | cons x xs ih =>
      intro acc
      rw [List.foldl_cons]
      cases hx : parseAPTConfigLine x with
      | none => simp only [hx]; rw [ih]; simp [hx]
      | some repo => simp only [hx]; rw [ih]; simp [hx]
  simpa using main (goLines data) []

/-- The source-collection loop of ParseAPTConfigFolder keeps exactly the
`.list` files of the listing, in listing order. -/
theorem sourcesFold_eq (listing : List (String × String)) : ∀ acc : List (Option String),
    listing.foldl
      (fun acc ent => if goHasSuffix ent.1 ".list" then acc ++ [some ent.2] else acc) acc =
      acc ++ (listing.filter (fun ent => goHasSuffix ent.1 ".list")).map
        (fun ent => some ent.2) := by
  induction listing with
  | nil => intro acc; simp
  | cons e es ih =>
    intro acc
    rw [List.foldl_cons]
    by_cases he : goHasSuffix e.1 ".list"
    · rw [if_pos he, ih]
      simp [List.filter_cons, he]
    · rw [if_neg he, ih]
      simp [List.filter_cons, he]

/-- Folding the per-file parser over readable files never fails and
concatenates the per-file records in order. -/
theorem foldParse_some (conts : List String) : ∀ res : List Repository,
    ((conts.map some).foldlM
      (fun res src =>
        match parseAPTConfigFile src with
        | Except.error e => Except.error ("Parsing source: " ++ e)
        | Except.ok repos => Except.ok (res ++ repos)) res : Except String (List Repository)) =
      Except.ok (res ++ conts.flatMap parseAPTConfigFileContent) := by
  induction conts with
  | nil =>
    intro res
    simp only [List.map_nil, List.foldlM_nil, List.flatMap_nil, List.append_nil]
    rfl
  | cons c cs ih =>
    intro res
    show (List.foldlM
      (fun res src =>
        match parseAPTConfigFile src with
        | Except.error e => Except.error ("Parsing source: " ++ e)
        | Except.ok repos => Except.ok (res ++ repos))
      (res ++ parseAPTConfigFileContent c) (cs.map some) : Except String (List Repository)) = _
    rw [ih]
    simp

/-- C5: when the directory listing and the primary file are both
readable, ParseAPTConfigFolder succeeds and returns the records of
`sources.list` first, then the records of each `.list` file of the
listing in listing order, each file contributing the records of its
grammar-matching lines in line order (non-matching lines are skipped,
not errors). -/
theorem c5_parse_folder_order (f : ConfigFolder) (primary : String)
    (listing : List (String × String))
    (h1 : f.sourcesList = some primary) (h2 : f.sourcesListD = some listing) :
    ParseAPTConfigFolder f =
      Except.ok ((goLines primary).filterMap parseAPTConfigLine ++
        (listing.filter (fun ent => goHasSuffix ent.1 ".list")).flatMap
          (fun ent => (goLines ent.2).filterMap parseAPTConfigLine)) := by
  unfold ParseAPTConfigFolder
  rw [h2]
  simp only [h1]
  rw [sourcesFold_eq]
  have hshape : ((some primary :: []) ++
      (listing.filter (fun ent => goHasSuffix ent.1 ".list")).map (fun ent => some ent.2) :
        List (Option String)) =
      (primary :: (listing.filter (fun ent => goHasSuffix ent.1 ".list")).map
        (fun ent => ent.2)).map some := by
    simp [List.map_map, Function.comp]
  rw [List.nil_append, hshape, foldParse_some]
  simp only [List.nil_append, List.flatMap_cons, List.flatMap_map]
  rw [parseFileContent_eq]
  congr 1
  congr 1
  apply List.flatMap_congr
  intro ent _
  exact parseFileContent_eq ent.2

/-- C5 witness: a concrete folder with one matching line in the primary
file, one `.list` drop-in and one ignored `.txt` file. -/
theorem c5_parse_folder_order_witness :
    (⟨some "deb http://u d c\nnot a line",
      ("a.list", "deb-src http://v e f") :: ("skip.txt", "deb http://w g h") :: []⟩ :
        ConfigFolder).sourcesList = some "deb http://u d c\nnot a line" ∧
    ParseAPTConfigFolder
      ⟨some "deb http://u d c\nnot a line",
        ("a.list", "deb-src http://v e f") :: ("skip.txt", "deb http://w g h") :: []⟩ =
      Except.ok ((goLines "deb http://u d c\nnot a line").filterMap parseAPTConfigLine ++
        ((("a.list", "deb-src http://v e f") :: ("skip.txt", "deb http://w g h") :: []).filter
          (fun ent => goHasSuffix ent.1 ".list")).flatMap
          (fun ent => (goLines ent.2).filterMap parseAPTConfigLine)) :=
  ⟨rfl, c5_parse_folder_order
    ⟨some "deb http://u d c\nnot a line",
      ("a.list", "deb-src http://v e f") :: ("skip.txt", "deb http://w g h") :: []⟩
    "deb http://u d c\nnot a line"
    (("a.list", "deb-src http://v e f") :: ("skip.txt", "deb http://w g h") :: [])
    rfl rfl⟩

/-- C6: ParseAPTConfigFolder fails whenever the `sources.list.d`
listing is unavailable, and — listing available — it also fails when
the primary `sources.list` is missing: the missing primary file is not
treated specially, its read failure surfaces as an error of the same
(only) error kind the function has, a wrapped file-access message. -/
theorem c6_folder_error_paths (f : ConfigFolder) :
    (f.sourcesListD = none → ∃ e, ParseAPTConfigFolder f = Except.error e) ∧
    (∀ listing, f.sourcesListD = some listing → f.sourcesList = none →
      ∃ e, ParseAPTConfigFolder f = Except.error e) := by
  constructor
  · intro h
    refine ⟨"Reading sources.list.d folder: cannot list directory", ?_⟩
    simp only [ParseAPTConfigFolder, h]
  · intro listing hl hp
    refine ⟨"Parsing source: " ++ "Reading file: no such file or directory", ?_⟩
    simp only [ParseAPTConfigFolder, hl, hp]
    rfl

/-- C6 witness: a folder whose directory cannot be listed, and a folder
with an empty listing but no primary file. -/
theorem c6_folder_error_paths_witness :
    ((⟨some "deb http://u d c", none⟩ : ConfigFolder).sourcesListD = none ∧
      ∃ e, ParseAPTConfigFolder ⟨some "deb http://u d c", none⟩ = Except.error e) ∧
    ((⟨none, some []⟩ : ConfigFolder).sourcesListD = some [] ∧
      (⟨none, some []⟩ : ConfigFolder).sourcesList = none ∧
      ∃ e, ParseAPTConfigFolder ⟨none, some []⟩ = Except.error e) :=
  ⟨⟨rfl, (c6_folder_error_paths ⟨some "deb http://u d c", none⟩).1 rfl⟩,
   ⟨rfl, rfl, (c6_folder_error_paths ⟨none, some []⟩).2 [] rfl rfl⟩⟩

/-- Appending to the managed file's content when it is present in the
listing. -/
theorem managed_update (listing : List (String × String)) (add : String)
    (h : listing.any (fun ent => ent.1 = "managed.list") = true) :
    managedContent (listing.map (fun ent =>
      if ent.1 = "managed.list" then (ent.1, ent.2 ++ add) else ent)) =
      managedContent listing ++ add := by
  induction listing with
  | nil => simp at h
  | cons e es ih =>
    by_cases he : e.1 = "managed.list"
    · simp only [List.map_cons, if_pos he, managedContent]
      rw [List.find?_cons_of_pos _ (by simp [he]), List.find?_cons_of_pos _ (by simp [he])]
      simp
    · have h2 : es.any (fun ent => ent.1 = "managed.list") = true := by
        simpa [he] using h
      have ih2 := ih h2
      simp only [managedContent] at ih2
      simp only [List.map_cons, if_neg he, managedContent]
      rw [List.find?_cons_of_neg _ (by simp [he]), List.find?_cons_of_neg _ (by simp [he])]
      exact ih2

/-- An absent managed file has empty content. -/
theorem managed_absent (listing : List (String × String))
    (h : listing.any (fun ent => ent.1 = "managed.list") = false) :
    managedContent listing = "" := by
  induction listing with
  | nil => rfl
  | cons e es ih =>
    simp only [List.any_cons, Bool.or_eq_false_iff] at h
    have he : ¬ e.1 = "managed.list" := by simpa using h.1
    have ih2 := ih h.2
    simp only [managedContent] at ih2 ⊢
    rw [List.find?_cons_of_neg _ (by simp [he])]
    exact ih2

/-- Creating the managed file at the end of the listing. -/
theorem managed_append_new (listing : List (String × String)) (add : String)
    (h : listing.any (fun ent => ent.1 = "managed.list") = false) :
    managedContent (listing ++ (("managed.list", add) :: [])) = add := by
  induction listing with
  | nil => simp [managedContent]
  | cons e es ih =>
    simp only [List.any_cons, Bool.or_eq_false_iff] at h
    have he : ¬ e.1 = "managed.list" := by simpa using h.1
    have ih2 := ih h.2
    simp only [managedContent] at ih2 ⊢
    rw [List.cons_append, List.find?_cons_of_neg _ (by simp [he])]
    exact ih2

/-- The in-place update of the managed file leaves every other entry of
the listing unchanged. -/
theorem filter_managed_update (listing : List (String × String)) (add : String) :
    (listing.map (fun ent =>
      if ent.1 = "managed.list" then (ent.1, ent.2 ++ add) else ent)).filter
        (fun ent => ¬ ent.1 = "managed.list") =
      listing.filter (fun ent => ¬ ent.1 = "managed.list") := by
  induction listing with
  | nil => rfl
  | cons e es ih =>
    by_cases he : e.1 = "managed.list"
    · simp only [List.map_cons, if_pos he, List.filter_cons]
      simp only [decide_not] at ih
      simp [he, ih]
    · simp only [List.map_cons, if_neg he, List.filter_cons]
      simp only [decide_not] at ih
      simp [he, ih]

/-- Creating the managed file leaves every other entry of the listing
unchanged. -/
theorem filter_managed_append (listing : List (String × String)) (add : String) :
    (listing ++ (("managed.list", add) :: [])).filter
        (fun ent => ¬ ent.1 = "managed.list") =
      listing.filter (fun ent => ¬ ent.1 = "managed.list") := by
  rw [List.filter_append]
  simp

/-- C3: with the folder parsed successfully, AddRepository fails — with
the duplicate error and no change to the folder — exactly when the
parsed repositories contain one Equal to the new repository; otherwise
it succeeds, leaving the primary file and every other entry of the
listing unchanged and extending the content of
`sources.list.d/managed.list` (empty if absent, so the file is created)
by exactly the rendered line plus a newline. -/
theorem c3_addRepository (repo : Repository) (f : ConfigFolder)
    (listing : List (String × String)) (repos : RepositoryList)
    (hL : f.sourcesListD = some listing) (hP : ParseAPTConfigFolder f = Except.ok repos) :
    (AddRepository repo f = Except.error "The repository is already configured" ↔
      RepositoryList.Contains repos repo = true) ∧
    (RepositoryList.Contains repos repo = false →
      ∃ listing2,
        AddRepository repo f = Except.ok { f with sourcesListD := some listing2 } ∧
        managedContent listing2 =
          managedContent listing ++ (Repository.APTConfigLine repo ++ "\n") ∧
        listing2.filter (fun ent => ¬ ent.1 = "managed.list") =
          listing.filter (fun ent => ¬ ent.1 = "managed.list")) := by
  by_cases hc : RepositoryList.Contains repos repo
  · constructor
    · simp [AddRepository, hP, hc]
    · intro hcf
      rw [hcf] at hc
      cases hc
  · have hcf : RepositoryList.Contains repos repo = false := by
      rwa [Bool.not_eq_true] at hc
    by_cases hm : listing.any (fun ent => ent.1 = "managed.list")
    · constructor
      · simp [AddRepository, hP, hL, hcf, hm]
      · intro _
        refine ⟨listing.map (fun ent =>
          if ent.1 = "managed.list" then
            (ent.1, ent.2 ++ (Repository.APTConfigLine repo ++ "\n"))
          else ent), ?_, ?_, ?_⟩
        · simp [AddRepository, hP, hL, hcf, hm]
        · exact managed_update listing _ hm
        · exact filter_managed_update listing _
    · have hmf : listing.any (fun ent => ent.1 = "managed.list") = false := by
        rwa [Bool.not_eq_true] at hm
      constructor
      · simp [AddRepository, hP, hL, hcf, hmf]
      · intro _
        refine ⟨listing ++ (("managed.list", Repository.APTConfigLine repo ++ "\n") :: []),
          ?_, ?_, ?_⟩
        · simp [AddRepository, hP, hL, hcf, hmf]
        · rw [managed_append_new listing _ hmf, managed_absent listing hmf]
          simp
        · exact filter_managed_append listing _

/-- C3 witness: a folder whose only record is `deb http://u d c`; adding
a repository with a different URI is not a duplicate, and the failure
condition is equivalent to membership. -/
theorem c3_addRepository_witness :
    ParseAPTConfigFolder ⟨some "deb http://u d c", some []⟩ =
      Except.ok ((⟨true, false, "", "http://u", "d", "c", ""⟩ : Repository) :: []) ∧
    ((AddRepository ⟨true, false, "", "http://v", "d", "c", ""⟩
        ⟨some "deb http://u d c", some []⟩ =
        Except.error "The repository is already configured") ↔
      RepositoryList.Contains ((⟨true, false, "", "http://u", "d", "c", ""⟩ : Repository) :: [])
        ⟨true, false, "", "http://v", "d", "c", ""⟩ = true) :=
  ⟨rfl, (c3_addRepository ⟨true, false, "", "http://v", "d", "c", ""⟩
    ⟨some "deb http://u d c", some []⟩ []
    ((⟨true, false, "", "http://u", "d", "c", ""⟩ : Repository) :: []) rfl rfl).1⟩

/-! ### Behaviour of the greedy matcher

Three lemmas cover every situation the round-trip proof meets: the
greedy run succeeds at the maximal split (`greedy_success`), it succeeds
after giving back exactly one character (`greedy_backtrack`), or every
split fails (`greedy_none`). -/

/-- If the continuation succeeds at the maximal split — all of `a`
satisfies the class and `b` starts with a non-class character — the
greedy matcher returns that result. -/
theorem greedy_success {α : Type} (p : Char → Bool) (k : List Char → List Char → Option α)
    (a b : List Char) (v : α)
    (ha : ∀ c ∈ a, p c = true)
    (hb : b = [] ∨ ∃ c cs, b = c :: cs ∧ p c = false) :
    ∀ acc, k (acc.reverse ++ a) b = some v → greedyAux p k acc (a ++ b) = some v := by
  induction a with
  | nil =>
    intro acc hk
    rcases hb with rfl | ⟨c, cs, rfl, hc⟩
    · simp only [List.append_nil] at hk ⊢
      simpa [greedyAux] using hk
    · simp only [List.nil_append] at hk ⊢
      simpa [greedyAux, hc] using hk
  | cons x xs ih =>
    intro acc hk
    have hx : p x = true := ha x (by simp)
    have hk2 : k ((x :: acc).reverse ++ xs) b = some v := by
      simpa [List.append_assoc] using hk
    have hrec := ih (fun c hc => ha c (by simp [hc])) (x :: acc) hk2
    simp only [List.cons_append, greedyAux, hx, if_true, List.append_eq]
    rw [hrec]
    rfl

/-- If the continuation fails at the maximal split but succeeds after
the matcher gives back one class character `c`, the greedy matcher
returns the latter result. -/
theorem greedy_backtrack {α : Type} (p : Char → Bool) (k : List Char → List Char → Option α)
    (a : List Char) (c : Char) (b : List Char) (v : α)
    (ha : ∀ x ∈ a, p x = true) (hc : p c = true)
    (hb : b = [] ∨ ∃ d ds, b = d :: ds ∧ p d = false) :
    ∀ acc, k (acc.reverse ++ a ++ (c :: [])) b = none →
      k (acc.reverse ++ a) (c :: b) = some v →
      greedyAux p k acc (a ++ c :: b) = some v := by
  induction a with
  | nil =>
    intro acc hfail hk
    simp only [List.nil_append, List.append_nil] at hfail hk
    have hdeep : greedyAux p k (c :: acc) b = none := by
      rcases hb with rfl | ⟨d, ds, rfl, hd⟩
      · simpa [greedyAux] using hfail
      · simpa [greedyAux, hd] using hfail
    simp only [List.nil_append, greedyAux, hc, if_true]
    rw [hdeep, hk]
    rfl
  | cons x xs ih =>
    intro acc hfail hk
    have hx : p x = true := ha x (by simp)
    have hfail2 : k ((x :: acc).reverse ++ xs ++ (c :: [])) b = none := by
      simpa [List.append_assoc] using hfail
    have hk2 : k ((x :: acc).reverse ++ xs) (c :: b) = some v := by
      simpa [List.append_assoc] using hk
    have hrec := ih (fun y hy => ha y (by simp [hy])) (x :: acc) hfail2 hk2
    simp only [List.cons_append, greedyAux, hx, if_true, List.append_eq]
    rw [hrec]
    rfl

/-- If the continuation fails at every split of an all-class input, the
greedy matcher fails. -/
theorem greedy_none {α : Type} (p : Char → Bool) (k : List Char → List Char → Option α)
    (s : List Char) (hs : ∀ c ∈ s, p c = true) :
    ∀ acc, (∀ x y, s = x ++ y → k (acc.reverse ++ x) y = none) →
      greedyAux p k acc s = none := by
  induction s with
  | nil =>
    intro acc hfail
    have := hfail [] [] rfl
    simpa [greedyAux] using this
  | cons c cs ih =>
    intro acc hfail
    have hc : p c = true := hs c (by simp)
    have hdeep : greedyAux p k (c :: acc) cs = none := by
      apply ih (fun y hy => hs y (by simp [hy]))
      intro x y hxy
      have := hfail (c :: x) y (by simp [hxy])
      simpa [List.append_assoc] using this
    have hhere : k acc.reverse (c :: cs) = none := by
      simpa using hfail [] (c :: cs) (by simp)
    simp only [greedyAux, hc, if_true]
    rw [hdeep, hhere]
    rfl

/-! ### Evaluating the matcher on a rendered line -/

/-- The final `(.*)$` matches a whole newline-free input. -/
theorem reDotStarEnd_eval (s : List Char) (h : ∀ c ∈ s, c ≠ '\n') :
    reDotStarEnd s = some s := by
  unfold reDotStarEnd
  have := greedy_success isNotNL (fun g rest => if rest = [] then some g else none)
    s [] s (fun c hc => by simp [isNotNL, h c hc]) (Or.inl rfl) []
  simpa using this (by simp)

/-- The ` *(.*)$` part of the comment group: the greedy space run takes
exactly the rendered separator space, and the comment — which does not
itself start with a space — is captured whole. -/
theorem reAfterHash_eval (m : List Char) (h1 : m.head? ≠ some ' ')
    (h2 : ∀ c ∈ m, c ≠ '\n') :
    reAfterHash (' ' :: m) = some m := by
  unfold reAfterHash
  have hb : m = [] ∨ ∃ c cs, m = c :: cs ∧ isSp c = false := by
    cases m with
    | nil => exact Or.inl rfl
    | cons c cs =>
      refine Or.inr ⟨c, cs, rfl, ?_⟩
      have : c ≠ ' ' := by simpa using h1
      simp [isSp, this]
  have := greedy_success isSp (fun _ rest => reDotStarEnd rest)
    (' ' :: []) m m (by simp [isSp]) hb []
  simpa using this (by simpa using reDotStarEnd_eval m h2)

/-- The comment group ` +# *(.*)$` on the rendered suffix `# ` plus
comment. -/
theorem reCommentPresent_eval (m : List Char) (h1 : m.head? ≠ some ' ')
    (h2 : ∀ c ∈ m, c ≠ '\n') :
    reCommentPresent (' ' :: '#' :: ' ' :: m) = some m := by
  have hsp : isSp ' ' = true := rfl
  simp only [reCommentPresent, hsp, if_true]
  have hk : reHash ('#' :: ' ' :: m) = some m := by
    simp only [reHash, if_pos rfl]
    exact reAfterHash_eval m h1 h2
  have := greedy_success isSp (fun _ rest => reHash rest)
    [] ('#' :: ' ' :: m) m (by simp) (Or.inr ⟨'#', ' ' :: m, rfl, by decide⟩) (' ' :: [])
  simpa using this (by simpa using hk)

/-- The optional comment group accepts the end of the line with an
empty capture. -/
theorem reCommentOpt_nil : reCommentOpt [] = some [] := by
  rfl

/-- The optional comment group rejects a leftover that starts with `#`
(no space before the hash, and not the end of the line). -/
theorem reCommentOpt_hash (r : List Char) : reCommentOpt ('#' :: r) = none := by
  simp [reCommentOpt, reCommentPresent, isSp, orOpt]

/-- The optional comment group on the rendered comment suffix. -/
theorem reCommentOpt_eval (m : List Char) (h1 : m.head? ≠ some ' ')
    (h2 : ∀ c ∈ m, c ≠ '\n') :
    reCommentOpt (' ' :: '#' :: ' ' :: m) = some m := by
  simp [reCommentOpt, reCommentPresent_eval m h1 h2, orOpt]

/-- The components stage on rendered components plus optional comment
suffix: with no comment the greedy class run reaches the end of the
line; with a comment it gives back exactly the separator space before
the hash. -/
theorem reComps_eval (c : List Char) (cm : Option (List Char))
    (hc : c ≠ []) (hc2 : ∀ ch ∈ c, ch ≠ '#' ∧ ch ≠ '\n')
    (hm : ∀ m, cm = some m → (m.head? ≠ some ' ' ∧ ∀ ch ∈ m, ch ≠ '\n')) :
    reComps (c ++ cmSuffix cm) = some (c, cm.getD []) := by
  obtain ⟨c0, ct, rfl⟩ : ∃ c0 ct, c = c0 :: ct := by
    cases c with
    | nil => cases hc rfl
    | cons c0 ct => exact ⟨c0, ct, rfl⟩
  have hc0 : isComp c0 = true := by
    have := hc2 c0 (by simp)
    simp [isComp, this.1, this.2]
  have hct : ∀ ch ∈ ct, isComp ch = true := by
    intro ch hch
    have := hc2 ch (by simp [hch])
    simp [isComp, this.1, this.2]
  cases cm with
  | none =>
    simp only [cmSuffix, List.append_nil, List.cons_append, reComps, hc0, if_true]
    have := greedy_success isComp
      (fun comp rest => (reCommentOpt rest).map (fun g7 => (comp, g7)))
      ct [] (c0 :: ct, ([] : List Char)) hct (Or.inl rfl) (c0 :: [])
    simpa using this (by simp [reCommentOpt_nil])
  | some m =>
    obtain ⟨hmh, hmn⟩ := hm m rfl
    simp only [cmSuffix, List.cons_append, reComps, hc0, if_true]
    have := greedy_backtrack isComp
      (fun comp rest => (reCommentOpt rest).map (fun g7 => (comp, g7)))
      ct ' ' ('#' :: ' ' :: m) (c0 :: ct, m) hct (by decide)
      (Or.inr ⟨'#', ' ' :: m, rfl, by decide⟩) (c0 :: [])
    have hfail : ((reCommentOpt ('#' :: ' ' :: m)).map
        (fun g7 => ((c0 :: []).reverse ++ ct ++ (' ' :: []), g7))) = none := by
      simp [reCommentOpt_hash]
    have hk : ((reCommentOpt (' ' :: '#' :: ' ' :: m)).map
        (fun g7 => ((c0 :: []).reverse ++ ct, g7))) = some (c0 :: ct, m) := by
      simp [reCommentOpt_eval m hmh hmn]
    have hres := this (by simpa using hfail) (by simpa using hk)
    simpa using hres

/-- The distribution stage on a rendered space-free distribution token
followed by the space separator and the components input. -/
theorem reDist_eval (d : List Char) (hd : d ≠ []) (hd2 : ∀ ch ∈ d, ch ≠ ' ')
    (z : List Char) (t : List Char × List Char) (hz : reComps z = some t) :
    reDist (d ++ ' ' :: z) = some (d, t.1, t.2) := by
  obtain ⟨d0, dt, rfl⟩ : ∃ d0 dt, d = d0 :: dt := by
    cases d with
    | nil => cases hd rfl
    | cons d0 dt => exact ⟨d0, dt, rfl⟩
  have hd0 : isNotSp d0 = true := by simp [isNotSp, hd2 d0 (by simp)]
  have hdt : ∀ ch ∈ dt, isNotSp ch = true := fun ch hch => by
    simp [isNotSp, hd2 ch (by simp [hch])]
  simp only [List.cons_append, reDist, hd0, if_true]
  have := greedy_success isNotSp
    (fun g rest =>
      match rest with
      | r :: r2 => if r = ' ' then (reComps r2).map (fun t => (g, t)) else none
      | [] => none)
    dt (' ' :: z) (d0 :: dt, t.1, t.2) hdt (Or.inr ⟨' ', z, rfl, by decide⟩) (d0 :: [])
  apply this
  simp [hz]

/-- The URI stage on a rendered space-free URI token followed by the
space separator and the distribution input. -/
theorem reURIstage_eval (u : List Char) (hu : u ≠ []) (hu2 : ∀ ch ∈ u, ch ≠ ' ')
    (z : List Char) (t : List Char × List Char × List Char) (hz : reDist z = some t) :
    reURIstage (u ++ ' ' :: z) = some (u, t) := by
  obtain ⟨u0, ut, rfl⟩ : ∃ u0 ut, u = u0 :: ut := by
    cases u with
    | nil => cases hu rfl
    | cons u0 ut => exact ⟨u0, ut, rfl⟩
  have hu0 : isNotSp u0 = true := by simp [isNotSp, hu2 u0 (by simp)]
  have hut : ∀ ch ∈ ut, isNotSp ch = true := fun ch hch => by
    simp [isNotSp, hu2 ch (by simp [hch])]
  simp only [List.cons_append, reURIstage, hu0, if_true]
  have := greedy_success isNotSp
    (fun g rest =>
      match rest with
      | r :: r2 => if r = ' ' then (reDist r2).map (fun t => (g, t)) else none
      | [] => none)
    ut (' ' :: z) (u0 :: ut, t) hut (Or.inr ⟨' ', z, rfl, by decide⟩) (u0 :: [])
  apply this
  simp [hz]

/-- The bracket group does not engage when the character after the
space is not `[`. -/
theorem reBracketPresent_neg (c2 : Char) (h : c2 ≠ '[') (r : List Char) :
    reBracketPresent (' ' :: c2 :: r) = none := by
  simp [reBracketPresent, h]

/-- A split of a list around its unique `]` is unique. -/
theorem sep_unique (o w : List Char) (ho : ∀ ch ∈ o, ch ≠ ']')
    (hw : ∀ ch ∈ w, ch ≠ ']') :
    ∀ x y, o ++ ']' :: w = x ++ ']' :: y → x = o ∧ y = w := by
  induction o with
  | nil =>
    intro x y h
    cases x with
    | nil =>
      have hwy : w = y := by simpa using h
      exact ⟨rfl, hwy.symm⟩
    | cons a xs =>
      simp only [List.nil_append, List.cons_append, List.cons.injEq] at h
      exfalso
      have : (']' : Char) ∈ w := by
        rw [h.2]
        simp
      exact hw ']' this rfl
  | cons oh ot ih =>
    intro x y h
    cases x with
    | nil =>
      simp only [List.cons_append, List.nil_append, List.cons.injEq] at h
      exact absurd h.1 (ho oh (by simp))
    | cons a xs =>
      simp only [List.cons_append, List.cons.injEq] at h
      have := ih (fun ch hch => ho ch (by simp [hch])) xs y h.2
      refine ⟨?_, this.2⟩
      rw [h.1, this.1]

/-- With brackets rendered around newline-free options but no space
after the closing bracket, the bracket group fails at every split: the
only closing bracket is followed by the URI, not by the space the
pattern requires. -/
theorem reBracketPresent_fails (o w : List Char)
    (ho : ∀ ch ∈ o, ch ≠ ']' ∧ ch ≠ '\n')
    (hw : ∀ ch ∈ w, ch ≠ ']' ∧ ch ≠ '\n')
    (hwh : w.head? ≠ some ' ') :
    reBracketPresent (' ' :: '[' :: (o ++ ']' :: w)) = none := by
  have hcond : ((' ' : Char) = ' ' ∧ ('[' : Char) = '[') := ⟨rfl, rfl⟩
  simp only [reBracketPresent, if_pos hcond]
  apply greedy_none
  · intro ch hch
    rcases List.mem_append.mp hch with hcho | hchw
    · simp [isNotNL, (ho ch hcho).2]
    · rcases List.mem_cons.mp hchw with rfl | hchw2
      · decide
      · simp [isNotNL, (hw ch hchw2).2]
  · intro x y hxy
    cases y with
    | nil => rfl
    | cons d ds =>
      by_cases hdd : d = ']'
      · subst hdd
        obtain ⟨rfl, rfl⟩ := sep_unique o w (fun ch hch => (ho ch hch).1)
          (fun ch hch => (hw ch hch).1) x ds hxy
        simp only [if_pos rfl]
        cases ds with
        | nil => rfl
        | cons w0 ws =>
          have : w0 ≠ ' ' := by simpa using hwh
          simp [this]
      · simp [hdd]

/-- The optional bracket group falls through to the plain-URI branch
whenever its own attempt fails. -/
theorem reBracketOpt_eval (x : List Char)
    (hpres : reBracketPresent (' ' :: x) = none)
    (t : List Char × List Char × List Char × List Char)
    (hx : reURIstage x = some t) :
    reBracketOpt (' ' :: x) = some ([], t) := by
  simp [reBracketOpt, hpres, orOpt, hx]

/-- The alternation takes the `deb` branch when the line continues with
a space. -/
theorem reKind_deb (x : List Char)
    (t : List Char × List Char × List Char × List Char × List Char)
    (h : reBracketOpt (' ' :: x) = some t) :
    reKind ('d' :: 'e' :: 'b' :: ' ' :: x) = some (debChars, t) := by
  simp [reKind, h, orOpt]

/-- The alternation backtracks from `deb` to `deb-src` when the line
continues with `-src `. -/
theorem reKind_debsrc (x : List Char)
    (t : List Char × List Char × List Char × List Char × List Char)
    (h : reBracketOpt (' ' :: x) = some t) :
    reKind ('d' :: 'e' :: 'b' :: '-' :: 's' :: 'r' :: 'c' :: ' ' :: x) =
      some (debsrcChars, t) := by
  have h1 : reBracketPresent ('-' :: 's' :: 'r' :: 'c' :: ' ' :: x) = none := by
    simp [reBracketPresent]
  have h2 : reBracketOpt ('-' :: 's' :: 'r' :: 'c' :: ' ' :: x) = none := by
    simp [reBracketOpt, h1, orOpt]
  simp [reKind, h2, orOpt, h]

/-- The line matcher on an enabled line (starting with `deb`): the
disabled-marker group does not participate. -/
theorem reLine_enabled (rest : List Char)
    (t : List Char × List Char × List Char × List Char × List Char × List Char)
    (h : reKind ('d' :: 'e' :: 'b' :: rest) = some t) :
    reLine ('d' :: 'e' :: 'b' :: rest) =
      some ⟨[], t.1, t.2.1, t.2.2.1, t.2.2.2.1, t.2.2.2.2.1, t.2.2.2.2.2⟩ := by
  simp [reLine, h, orOpt]

/-- The line matcher on a disabled line (starting with `# `): the
disabled-marker group captures `# `. -/
theorem reLine_disabled (s : List Char)
    (t : List Char × List Char × List Char × List Char × List Char × List Char)
    (h : reKind s = some t) :
    reLine ('#' :: ' ' :: s) =
      some ⟨'#' :: ' ' :: [], t.1, t.2.1, t.2.2.1, t.2.2.2.1, t.2.2.2.2.1, t.2.2.2.2.2⟩ := by
  simp [reLine, h, orOpt]

/-- The full matcher on a rendered line: the enabled marker, the kind
word, the (never matching, because of the missing space) bracket part
glued onto the URI token, the distribution, the components and the
comment are recovered as described. -/
theorem reLine_mkLine (en src : Bool) (brk : Option (List Char)) (u d c : List Char)
    (cm : Option (List Char))
    (hu : u ≠ []) (hu2 : ∀ ch ∈ u, ch ≠ ' ' ∧ ch ≠ '\n' ∧ ch ≠ '[' ∧ ch ≠ ']')
    (hd : d ≠ []) (hd2 : ∀ ch ∈ d, ch ≠ ' ' ∧ ch ≠ '\n' ∧ ch ≠ ']')
    (hc : c ≠ []) (hc2 : ∀ ch ∈ c, ch ≠ '#' ∧ ch ≠ '\n' ∧ ch ≠ ']')
    (hbrk : ∀ o, brk = some o → ∀ ch ∈ o, ch ≠ ' ' ∧ ch ≠ '\n' ∧ ch ≠ ']')
    (hcm : ∀ m, cm = some m → (m.head? ≠ some ' ' ∧ ∀ ch ∈ m, ch ≠ '\n' ∧ ch ≠ ']')) :
    reLine (mkLine en src brk u d c cm) =
      some ⟨(if en then [] else '#' :: ' ' :: []),
            (if src then debsrcChars else debChars),
            [], brkPart brk ++ u, d, c, cm.getD []⟩ := by
  obtain ⟨u0, ut, rfl⟩ : ∃ u0 ut, u = u0 :: ut := by
    cases u with
    | nil => cases hu rfl
    | cons u0 ut => exact ⟨u0, ut, rfl⟩
  have hcomps : reComps (c ++ cmSuffix cm) = some (c, cm.getD []) :=
    reComps_eval c cm hc (fun ch hch => ⟨(hc2 ch hch).1, (hc2 ch hch).2.1⟩)
      (fun m hm => ⟨(hcm m hm).1, fun ch hch => ((hcm m hm).2 ch hch).1⟩)
  have hdist : reDist (d ++ ' ' :: (c ++ cmSuffix cm)) = some (d, c, cm.getD []) :=
    reDist_eval d hd (fun ch hch => (hd2 ch hch).1) _ _ hcomps
  have hopt : reBracketOpt (' ' :: (brkPart brk ++ (u0 :: ut) ++
      ' ' :: (d ++ ' ' :: (c ++ cmSuffix cm)))) =
      some ([], brkPart brk ++ (u0 :: ut), d, c, cm.getD []) := by
    cases brk with
    | none =>
      have huri : reURIstage ((u0 :: ut) ++ ' ' :: (d ++ ' ' :: (c ++ cmSuffix cm))) =
          some (u0 :: ut, d, c, cm.getD []) :=
        reURIstage_eval _ hu (fun ch hch => (hu2 ch hch).1) _ _ hdist
      have hpres : reBracketPresent
          (' ' :: ((u0 :: ut) ++ ' ' :: (d ++ ' ' :: (c ++ cmSuffix cm)))) = none := by
        have := reBracketPresent_neg u0 ((hu2 u0 (by simp)).2.2.1)
          (ut ++ ' ' :: (d ++ ' ' :: (c ++ cmSuffix cm)))
        simpa using this
      have := reBracketOpt_eval _ hpres _ huri
      simpa [brkPart] using this
    | some o =>
      have ho := hbrk o rfl
      have htok : ((('[' :: (o ++ (']' :: []))) ++ (u0 :: ut)) : List Char) =
          '[' :: (o ++ ']' :: (u0 :: ut)) := by
        simp
      have htok2 : ∀ ch ∈ ('[' :: (o ++ ']' :: (u0 :: ut)) : List Char), ch ≠ ' ' := by
        intro ch hch
        rcases List.mem_cons.mp hch with rfl | hch2
        · decide
        rcases List.mem_append.mp hch2 with hcho | hch3
        · exact (ho ch hcho).1
        rcases List.mem_cons.mp hch3 with rfl | hch4
        · decide
        · exact (hu2 ch hch4).1
      have huri : reURIstage (('[' :: (o ++ ']' :: (u0 :: ut))) ++
          ' ' :: (d ++ ' ' :: (c ++ cmSuffix cm))) =
          some ('[' :: (o ++ ']' :: (u0 :: ut)), d, c, cm.getD []) :=
        reURIstage_eval _ (by simp) htok2 _ _ hdist
      have hwall : ∀ ch ∈ ((u0 :: ut) ++ ' ' :: (d ++ ' ' :: (c ++ cmSuffix cm)) : List Char),
          ch ≠ ']' ∧ ch ≠ '\n' := by
        intro ch hch
        rcases List.mem_append.mp hch with hchu | hch2
        · exact ⟨(hu2 ch hchu).2.2.2, (hu2 ch hchu).2.1⟩
        rcases List.mem_cons.mp hch2 with rfl | hch3
        · exact ⟨by decide, by decide⟩
        rcases List.mem_append.mp hch3 with hchd | hch4
        · exact ⟨(hd2 ch hchd).2.2, (hd2 ch hchd).2.1⟩
        rcases List.mem_cons.mp hch4 with rfl | hch5
        · exact ⟨by decide, by decide⟩
        rcases List.mem_append.mp hch5 with hchc | hch6
        · exact ⟨(hc2 ch hchc).2.2, (hc2 ch hchc).2.1⟩
        · cases hcmv : cm with
          | none => rw [hcmv] at hch6; simp [cmSuffix] at hch6
          | some m =>
            rw [hcmv] at hch6
            simp only [cmSuffix] at hch6
            rcases List.mem_cons.mp hch6 with rfl | hch7
            · exact ⟨by decide, by decide⟩
            rcases List.mem_cons.mp hch7 with rfl | hch8
            · exact ⟨by decide, by decide⟩
            rcases List.mem_cons.mp hch8 with rfl | hch9
            · exact ⟨by decide, by decide⟩
            · exact ⟨((hcm m hcmv).2 ch hch9).2, ((hcm m hcmv).2 ch hch9).1⟩
      have hpres : reBracketPresent (' ' :: '[' :: (o ++ ']' ::
          ((u0 :: ut) ++ ' ' :: (d ++ ' ' :: (c ++ cmSuffix cm))))) = none :=
        reBracketPresent_fails o _
          (fun ch hch => ⟨(ho ch hch).2.2, (ho ch hch).2.1⟩) hwall
          (by simpa using (hu2 u0 (by simp)).1)
      have hshape : (('[' :: (o ++ (']' :: []))) ++ (u0 :: ut) ++
          ' ' :: (d ++ ' ' :: (c ++ cmSuffix cm)) : List Char) =
          '[' :: (o ++ ']' :: ((u0 :: ut) ++ ' ' :: (d ++ ' ' :: (c ++ cmSuffix cm)))) := by
        simp
      have huri2 : reURIstage (('[' :: (o ++ (']' :: []))) ++ (u0 :: ut) ++
          ' ' :: (d ++ ' ' :: (c ++ cmSuffix cm))) =
          some (('[' :: (o ++ (']' :: []))) ++ (u0 :: ut), d, c, cm.getD []) := by
        rw [hshape]
        have hhh : (('[' :: (o ++ (']' :: []))) ++ (u0 :: ut) : List Char) =
            '[' :: (o ++ ']' :: (u0 :: ut)) := htok
        rw [hhh]
        have hassoc : ('[' :: (o ++ ']' :: (u0 :: ut)) : List Char) ++
            ' ' :: (d ++ ' ' :: (c ++ cmSuffix cm)) =
            '[' :: (o ++ ']' :: ((u0 :: ut) ++ ' ' :: (d ++ ' ' :: (c ++ cmSuffix cm)))) := by
          simp
        rw [← hassoc] at *
        exact huri
      have hpres2 : reBracketPresent (' ' :: (('[' :: (o ++ (']' :: []))) ++ (u0 :: ut) ++
          ' ' :: (d ++ ' ' :: (c ++ cmSuffix cm)))) = none := by
        rw [hshape]
        exact hpres
      have := reBracketOpt_eval _ hpres2 _ huri2
      simpa [brkPart] using this
  cases en with
  | true =>
    cases src with
    | false =>
      have hkind := reKind_deb _ _ hopt
      have hline := reLine_enabled (' ' :: (brkPart brk ++ (u0 :: ut) ++
        ' ' :: (d ++ ' ' :: (c ++ cmSuffix cm)))) _ hkind
      have hmk : mkLine true false brk (u0 :: ut) d c cm =
          'd' :: 'e' :: 'b' :: ' ' :: (brkPart brk ++ (u0 :: ut) ++
            ' ' :: (d ++ ' ' :: (c ++ cmSuffix cm))) := by
        simp [mkLine, debChars]
      rw [hmk, hline]
      rfl
    | true =>
      have hkind := reKind_debsrc _ _ hopt
      have hline := reLine_enabled ('-' :: 's' :: 'r' :: 'c' :: ' ' :: (brkPart brk ++
        (u0 :: ut) ++ ' ' :: (d ++ ' ' :: (c ++ cmSuffix cm)))) _ hkind
      have hmk : mkLine true true brk (u0 :: ut) d c cm =
          'd' :: 'e' :: 'b' :: '-' :: 's' :: 'r' :: 'c' :: ' ' :: (brkPart brk ++
            (u0 :: ut) ++ ' ' :: (d ++ ' ' :: (c ++ cmSuffix cm))) := by
        simp [mkLine, debsrcChars]
      rw [hmk, hline]
      rfl
  | false =>
    cases src with
    | false =>
      have hkind := reKind_deb _ _ hopt
      have hline := reLine_disabled _ _ hkind
      have hmk : mkLine false false brk (u0 :: ut) d c cm =
          '#' :: ' ' :: ('d' :: 'e' :: 'b' :: ' ' :: (brkPart brk ++ (u0 :: ut) ++
            ' ' :: (d ++ ' ' :: (c ++ cmSuffix cm)))) := by
        simp [mkLine, debChars]
      rw [hmk, hline]
      rfl
    | true =>
      have hkind := reKind_debsrc _ _ hopt
      have hline := reLine_disabled _ _ hkind
      have hmk : mkLine false true brk (u0 :: ut) d c cm =
          '#' :: ' ' :: ('d' :: 'e' :: 'b' :: '-' :: 's' :: 'r' :: 'c' :: ' ' ::
            (brkPart brk ++ (u0 :: ut) ++
              ' ' :: (d ++ ' ' :: (c ++ cmSuffix cm)))) := by
        simp [mkLine, debsrcChars]
      rw [hmk, hline]
      rfl

/-- A string is its own character data repacked. -/
theorem str_eta (s : String) : String.mk s.data = s := by
  cases s
  rfl

/-- The characters of a rendered config line, as a `mkLine` shape. -/
theorem render_data (r : Repository) :
    r.APTConfigLine.data =
      mkLine r.Enabled r.SourceRepo
        (if goTrimNonEmpty r.Options then some r.Options.data else none)
        r.URI.data r.Distribution.data r.Components.data
        (if goTrimNonEmpty r.Comment then some r.Comment.data else none) := by
  have l1 : ("# " : String).data = '#' :: ' ' :: [] := rfl
  have l2 : ("deb-src " : String).data = debsrcChars ++ (' ' :: []) := rfl
  have l3 : ("deb " : String).data = debChars ++ (' ' :: []) := rfl
  have l4 : ("[" : String).data = '[' :: [] := rfl
  have l5 : ("]" : String).data = ']' :: [] := rfl
  have l6 : (" " : String).data = ' ' :: [] := rfl
  have l7 : (" # " : String).data = ' ' :: '#' :: ' ' :: [] := rfl
  have l8 : ("" : String).data = [] := rfl
  unfold Repository.APTConfigLine mkLine
  cases hE : r.Enabled <;> cases hS : r.SourceRepo <;>
    cases hO : goTrimNonEmpty r.Options <;> cases hC : goTrimNonEmpty r.Comment <;>
      simp [String.data_append, brkPart, cmSuffix, debChars, debsrcChars,
        l1, l2, l3, l4, l5, l6, l7, l8]

/-- C9: for a well-formed repository, rendering, parsing the rendered
line, and rendering again reproduces the very same string.  (Note that
the intermediate record need not equal `r`: when options are rendered,
parsing returns them glued onto the URI — see the C1 counterexample —
but the re-rendered text coincides.) -/
theorem c9_render_parse_render (r : Repository) (h : WellFormed r) :
    (parseAPTConfigLine r.APTConfigLine).map Repository.APTConfigLine =
      some r.APTConfigLine := by
  obtain ⟨⟨hu1, hu2⟩, ⟨hd1, hd2⟩, ⟨hc1, hc2⟩, hO, hC⟩ := h
  have hline := reLine_mkLine r.Enabled r.SourceRepo
    (if goTrimNonEmpty r.Options then some r.Options.data else none)
    r.URI.data r.Distribution.data r.Components.data
    (if goTrimNonEmpty r.Comment then some r.Comment.data else none)
    hu1 hu2 hd1 hd2 hc1 hc2
    (fun o ho => by
      by_cases hb : goTrimNonEmpty r.Options
      · rw [if_pos hb] at ho
        obtain rfl : r.Options.data = o := by simpa using ho
        exact hO hb
      · rw [if_neg hb] at ho
        cases ho)
    (fun m hm => by
      by_cases hb : goTrimNonEmpty r.Comment
      · rw [if_pos hb] at hm
        obtain rfl : r.Comment.data = m := by simpa using hm
        exact hC hb
      · rw [if_neg hb] at hm
        cases hm)
  unfold parseAPTConfigLine
  rw [render_data r, hline]
  simp only [Option.map_map, Option.map_some']
  apply congrArg
  apply String.ext
  rw [render_data]
  have hen : ∀ en : Bool,
      (decide (¬((if en = true then ([] : List Char) else '#' :: ' ' :: []) =
        '#' :: ' ' :: []))) = en := by
    intro en
    cases en <;> decide
  have hsrc : ∀ sr : Bool,
      (decide ((if sr = true then debsrcChars else debChars) = debsrcChars)) = sr := by
    intro sr
    cases sr <;> decide
  have hcomb : ∀ (en src : Bool) (obrk : Option (List Char)) (u d c : List Char)
      (ocm : Option (List Char)),
      mkLine en src none (brkPart obrk ++ u) d c ocm = mkLine en src obrk u d c ocm := by
    intro en src obrk u d c ocm
    simp [mkLine, brkPart]
  have htrimnil : goTrimNonEmpty { data := ([] : List Char) } = false := rfl
  dsimp only
  rw [hen r.Enabled, hsrc r.SourceRepo, htrimnil]
  by_cases hb : goTrimNonEmpty r.Comment
  · simp only [if_pos hb, Option.getD_some, Bool.false_eq_true, if_false]
    rw [render_data r, if_pos hb]
    exact hcomb _ _ _ _ _ _ _
  · simp only [if_neg hb, Option.getD_none, Bool.false_eq_true, if_false, htrimnil]
    rw [render_data r, if_neg hb]
    exact hcomb _ _ _ _ _ _ _

/-- C9 witness: a disabled deb-src line with options and a trailing
comment is well-formed, and render-parse-render reproduces its text. -/
theorem c9_render_parse_render_witness :
    WellFormed ⟨false, true, "arch=amd64", "http://u", "d", "main contrib", "note"⟩ ∧
    (parseAPTConfigLine (Repository.APTConfigLine
        ⟨false, true, "arch=amd64", "http://u", "d", "main contrib", "note"⟩)).map
      Repository.APTConfigLine =
      some (Repository.APTConfigLine
        ⟨false, true, "arch=amd64", "http://u", "d", "main contrib", "note"⟩) :=
  ⟨by decide, c9_render_parse_render
    ⟨false, true, "arch=amd64", "http://u", "d", "main contrib", "note"⟩ (by decide)⟩

end Apt
